import Mathlib

/-!
Verification of the srai hexagonal neighborhood dataset construction
(GeoVex `HexagonalDataset`) and of the OSM loader tag-grouping helper
(`OSMLoader._get_first_matching_osm_tag_value`).

The dataset component is embedded from the specification (the Python module
itself is not among the sampled sources; only its tests are), using local
axial ij coordinates for hexagonal cells, pinned to the H3 local-ij
convention by the concrete radius-2 example of spec section 8.
The OSM loader helper is embedded directly from
`srai/loaders/osm_loaders/_base.py`.
-/

namespace SraiSpec

/-- A hexagonal grid cell, represented by its local axial ij coordinates.
Modelled from the spec: cell identifiers are opaque tokens of a hexagonal
grid; locally comparable cells are identified with their axial offsets from
a common origin (section 3, "Local Offset"). -/
abbrev Cell : Type := Int × Int

/-- Modelled from the spec: `local_offset(origin, target)` computes the axial
position (i, j) of `target` relative to `origin` (section 4.1). In these
coordinates it is coordinate-wise subtraction. -/
def localOffset (origin target : Cell) : Int × Int :=
  (target.1 - origin.1, target.2 - origin.2)

/-- Hex-grid graph distance of an axial ij offset from the origin, in the
H3 local-ij convention pinned by the radius-2 example of spec section 8:
the disk of radius 2 around the origin is exactly the 19 listed pairs. -/
def hexDistO (p : Int × Int) : Nat :=
  max (max p.1.natAbs p.2.natAbs) (p.1 - p.2).natAbs

/-- Hex-grid graph distance between two cells (spec glossary: "ring/disk
distance"). -/
def hexDist (a b : Cell) : Nat := hexDistO (localOffset a b)

/-- All axial offsets within hex distance `r` of the origin (a filled disk). -/
def diskOffsets (r : Nat) : Finset (Int × Int) :=
  (Finset.Icc (-(r : Int)) (r : Int) ×ˢ Finset.Icc (-(r : Int)) (r : Int)).filter
    (fun p => hexDistO p ≤ r)

/-- Modelled from the spec: `ring_members(center, distance, include_center,
unchecked)` returns every cell at hex distance at most `distance` from
`center` (section 4.2). `includeCenter` toggles membership of the center
itself; when `unchecked` is false the result is additionally validated
against the external data index `index` (when one is supplied). -/
def ringMembers (index : Option (List Cell)) (center : Cell) (distance : Nat)
    (includeCenter unchecked : Bool) : Finset Cell :=
  ((diskOffsets distance).image (fun p => (center.1 + p.1, center.2 + p.2))).filter
    (fun n => ((includeCenter || decide (n ≠ center))
      && (unchecked || (match index with
                        | none => true
                        | some ks => decide (n ∈ ks)))) = true)

/-- Modelled from the spec: the Data Index slot of a cell is its position in
the ordered key list of the Data Index (section 3, "Data Index"). -/
def slotOf (keys : List Cell) (n : Cell) : Nat := keys.indexOf n

/-- Modelled from the spec: a cell is a valid center iff its entire disk of
radius `r` (center included, computed with `unchecked`) is a subset of the
Data Index's key set (section 4.3, validity filtering). -/
def isValidCenter (index : Option (List Cell)) (keys : List Cell) (r : Nat) (c : Cell) : Bool :=
  decide (ringMembers index c r true true ⊆ keys.toFinset)

/-- Modelled from the spec: the Neighborhood Dataset state after
construction: the Data Index key list, the ring distance, and the eagerly
computed Lookup Table (sections 3 and 4.4). -/
structure HexagonalDataset where
  keys : List Cell
  r : Nat
  lookup : List Cell

/-- Message of the validation error raised for a ring distance below 2. -/
def ringDistanceErrorMsg : String := "Invalid ring distance, must be at least 2"

/-- Modelled from the spec: dataset construction. Validates the ring
distance (at least 2) and then eagerly computes the Lookup Table by
filtering the Data Index's keys, in their own order, by the valid-center
test (sections 4.3 and 4.4). -/
def mkHexagonalDataset (index : Option (List Cell)) (keys : List Cell) (r : Int) :
    Except String HexagonalDataset :=
  if r < 2 then Except.error ringDistanceErrorMsg
  else Except.ok ⟨keys, r.toNat, keys.filter (fun c => isValidCenter index keys r.toNat c)⟩

/-- The cell whose axial offset from center `c` maps to grid position
(row, col) under the spec's affine convention row = r - j, col = i + r
(section 4.3 step 4, inverted). -/
def cellAt (c : Cell) (r : Nat) (row col : Nat) : Cell :=
  (c.1 + ((col : Int) - (r : Int)), c.2 + ((r : Int) - (row : Int)))

/-- Modelled from the spec: the Patch entry at grid position (row, col) for
center `c`: the Data Index slot of the unique neighbor of the radius-`r`
disk mapping there under row = r - j, col = i + r, and the sentinel 0 for
every position no disk member maps to (section 4.3, steps 1-6). -/
def patchEntry (keys : List Cell) (r : Nat) (c : Cell) (row col : Nat) : Nat :=
  if cellAt c r row col ∈ ringMembers none c r true true then
    slotOf keys (cellAt c r row col)
  else 0

/-- A Patch: a square grid of slot references and sentinels (section 3). -/
abbrev Patch : Type := List (List Nat)

/-- Modelled from the spec: the materialized Patch for center `c`: a square
grid of side 2r+2 whose (row, col) entry is `patchEntry` (section 4.3). -/
def patchGrid (keys : List Cell) (r : Nat) (c : Cell) : Patch :=
  (List.range (2 * r + 2)).map
    (fun row => (List.range (2 * r + 2)).map (fun col => patchEntry keys r c row col))

/-- Modelled from the spec: `get(i)`: the Patch for `lookup_table[i]` when
`i` is in range, and an out-of-range failure otherwise (section 4.4). -/
def getItem (ds : HexagonalDataset) (i : Nat) : Option Patch :=
  (ds.lookup[i]?).map (fun c => patchGrid ds.keys ds.r c)

/-- Modelled from the spec: dataset length = Lookup Table length (section 4.4). -/
def datasetLength (ds : HexagonalDataset) : Nat := ds.lookup.length

/-- The 19 axial pairs listed in spec section 8 for the radius-2 scenario. -/
def listed19 : List (Int × Int) :=
  [(0,0), (0,2), (1,2), (2,2), (-1,1), (0,1), (1,1), (2,1), (-2,0), (-1,0), (1,0), (2,0),
   (-2,-1), (-1,-1), (0,-1), (1,-1), (-2,-2), (-1,-2), (0,-2)]

/-- A small concrete Data Index: the 19 cells of the radius-2 disk around
the origin, root cell first. -/
def sampleKeys : List Cell := listed19

/-- The 37 cells of the radius-3 disk around the origin. -/
def listed37 : List Cell :=
  [(-3, -3), (-3, -2), (-3, -1), (-3, 0), (-2, -3), (-2, -2), (-2, -1), (-2, 0), (-2, 1),
   (-1, -3), (-1, -2), (-1, -1), (-1, 0), (-1, 1), (-1, 2), (0, -3), (0, -2), (0, -1),
   (0, 0), (0, 1), (0, 2), (0, 3), (1, -2), (1, -1), (1, 0), (1, 1), (1, 2), (1, 3),
   (2, -1), (2, 0), (2, 1), (2, 2), (2, 3), (3, 0), (3, 1), (3, 2), (3, 3)]

/-- A concrete dataset over `sampleKeys` with ring distance 2. -/
def sampleDataset : HexagonalDataset :=
  ⟨sampleKeys, 2, sampleKeys.filter (fun c => isValidCenter none sampleKeys 2 c)⟩

/-! Basic geometric lemmas. -/

theorem hexDistO_le_iff (a b : Int) (d : Nat) :
    hexDistO (a, b) ≤ d ↔ a.natAbs ≤ d ∧ b.natAbs ≤ d ∧ (a - b).natAbs ≤ d := by
  simp only [hexDistO]
  omega

theorem le_hexDistO_iff (a b : Int) (d : Nat) :
    d ≤ hexDistO (a, b) ↔ d ≤ a.natAbs ∨ d ≤ b.natAbs ∨ d ≤ (a - b).natAbs := by
  simp only [hexDistO]
  omega

theorem hexDist_eq (a b : Cell) : hexDist a b = hexDistO (b.1 - a.1, b.2 - a.2) := rfl

theorem hexDist_shift (c : Cell) (a b : Int) :
    hexDist c (c.1 + a, c.2 + b) = hexDistO (a, b) := by
  rw [hexDist_eq]
  have h : ((c.1 + a, c.2 + b) : Cell).1 - c.1 = a ∧ ((c.1 + a, c.2 + b) : Cell).2 - c.2 = b := by
    constructor <;> omega
  rw [h.1, h.2]

theorem hexDist_cellAt (c : Cell) (r row col : Nat) :
    hexDist c (cellAt c r row col) = hexDistO ((col : Int) - (r : Int), (r : Int) - (row : Int)) :=
  hexDist_shift c ((col : Int) - (r : Int)) ((r : Int) - (row : Int))

theorem hexDist_self (c : Cell) : hexDist c c = 0 := by
  rw [hexDist_eq]
  rw [show c.1 - c.1 = (0 : Int) by omega, show c.2 - c.2 = (0 : Int) by omega]
  rfl

theorem hexDist_triangle (a b c : Cell) : hexDist a c ≤ hexDist a b + hexDist b c := by
  have h1 := (hexDistO_le_iff (b.1 - a.1) (b.2 - a.2) (hexDist a b)).mp (le_of_eq (hexDist_eq a b).symm)
  have h2 := (hexDistO_le_iff (c.1 - b.1) (c.2 - b.2) (hexDist b c)).mp (le_of_eq (hexDist_eq b c).symm)
  rw [hexDist_eq a c, hexDistO_le_iff]
  refine ⟨?_, ?_, ?_⟩ <;> omega

theorem localOffset_cellAt (c : Cell) (r row col : Nat) :
    localOffset c (cellAt c r row col) = ((col : Int) - (r : Int), (r : Int) - (row : Int)) := by
  simp only [localOffset, cellAt, Prod.mk.injEq]
  omega

theorem mem_ringMembers (index : Option (List Cell)) (c n : Cell) (d : Nat) :
    n ∈ ringMembers index c d true true ↔ hexDist c n ≤ d := by
  constructor
  · intro h
    rw [ringMembers, Finset.mem_filter] at h
    obtain ⟨h1, -⟩ := h
    rw [Finset.mem_image] at h1
    obtain ⟨p, hp, rfl⟩ := h1
    rw [diskOffsets, Finset.mem_filter] at hp
    obtain ⟨a, b⟩ := p
    rw [hexDist_shift]
    exact hp.2
  · intro h
    obtain ⟨n1, n2⟩ := n
    have hd : hexDistO (n1 - c.1, n2 - c.2) ≤ d := by
      rw [hexDist_eq] at h
      exact h
    rw [ringMembers, Finset.mem_filter]
    refine ⟨?_, by simp⟩
    rw [Finset.mem_image]
    refine ⟨(n1 - c.1, n2 - c.2), ?_, ?_⟩
    · rw [diskOffsets, Finset.mem_filter]
      refine ⟨?_, hd⟩
      rw [hexDistO_le_iff] at hd
      simp only [Finset.mem_product, Finset.mem_Icc]
      refine ⟨⟨?_, ?_⟩, ?_, ?_⟩ <;> omega
    · simp only [Prod.mk.injEq]
      omega

theorem hexDist_eq_mk (x : Cell) (u v : Int) : hexDist x (u, v) = hexDistO (u - x.1, v - x.2) :=
  rfl

/-- For any base cell `x` and target `c`, the hex grid contains a cell at
distance at most `r` from `c` that is `r` farther from `x` than `c` is
(extend away from `x` along a grid line). -/
theorem hexDist_extend (x c : Cell) (r : Nat) :
    ∃ n : Cell, hexDist c n ≤ r ∧ hexDist x c + r ≤ hexDist x n := by
  have hup := (hexDistO_le_iff (c.1 - x.1) (c.2 - x.2) (hexDist x c)).mp
    (le_of_eq (hexDist_eq x c).symm)
  have hlo := (le_hexDistO_iff (c.1 - x.1) (c.2 - x.2) (hexDist x c)).mp
    (le_of_eq (hexDist_eq x c).symm)
  rcases le_total 0 (c.1 - x.1) with h1 | h1 <;> rcases le_total 0 (c.2 - x.2) with h2 | h2
  · refine ⟨(c.1 + (r : Int), c.2 + (r : Int)), ?_, ?_⟩
    · rw [hexDist_eq_mk, hexDistO_le_iff]
      omega
    · rw [hexDist_eq_mk x (c.1 + (r : Int)) (c.2 + (r : Int)), le_hexDistO_iff]
      omega
  · refine ⟨(c.1 + (r : Int), c.2), ?_, ?_⟩
    · rw [hexDist_eq_mk, hexDistO_le_iff]
      omega
    · rw [hexDist_eq_mk x (c.1 + (r : Int)) c.2, le_hexDistO_iff]
      omega
  · refine ⟨(c.1 - (r : Int), c.2), ?_, ?_⟩
    · rw [hexDist_eq_mk, hexDistO_le_iff]
      omega
    · rw [hexDist_eq_mk x (c.1 - (r : Int)) c.2, le_hexDistO_iff]
      omega
  · refine ⟨(c.1 - (r : Int), c.2 - (r : Int)), ?_, ?_⟩
    · rw [hexDist_eq_mk, hexDistO_le_iff]
      omega
    · rw [hexDist_eq_mk x (c.1 - (r : Int)) (c.2 - (r : Int)), le_hexDistO_iff]
      omega

theorem mem_diskOffsets (p : Int × Int) (r : Nat) : p ∈ diskOffsets r ↔ hexDistO p ≤ r := by
  obtain ⟨a, b⟩ := p
  rw [diskOffsets, Finset.mem_filter]
  constructor
  · exact fun h => h.2
  · intro h
    refine ⟨?_, h⟩
    rw [hexDistO_le_iff] at h
    simp only [Finset.mem_product, Finset.mem_Icc]
    refine ⟨⟨?_, ?_⟩, ?_, ?_⟩ <;> omega

/-- The radius-2 disk of offsets is exactly the 19 pairs of spec section 8. -/
theorem diskOffsets_two : diskOffsets 2 = listed19.toFinset := by decide

theorem mem_listed19 (p : Int × Int) : p ∈ listed19 ↔ hexDistO p ≤ 2 := by
  rw [← List.mem_toFinset, ← diskOffsets_two, mem_diskOffsets]

/-- The grid positions of the (2r+2)-sided Patch grid that a disk member
maps to, read back through the inverse affine mapping, enumerate exactly
the disk of offsets of radius r. -/
theorem written_offsets_image (c : Cell) (r : Nat) :
    ((Finset.range (2 * r + 2) ×ˢ Finset.range (2 * r + 2)).filter
        (fun q => cellAt c r q.1 q.2 ∈ ringMembers none c r true true)).image
      (fun q => localOffset c (cellAt c r q.1 q.2)) = diskOffsets r := by
  ext p
  simp only [Finset.mem_image, Finset.mem_filter, Finset.mem_product, Finset.mem_range]
  constructor
  · rintro ⟨q, ⟨⟨hq1, hq2⟩, hmem⟩, hoff⟩
    rw [mem_ringMembers, hexDist_cellAt] at hmem
    rw [localOffset_cellAt] at hoff
    rw [mem_diskOffsets, ← hoff]
    exact hmem
  · intro hp
    obtain ⟨a, b⟩ := p
    rw [mem_diskOffsets, hexDistO_le_iff] at hp
    refine ⟨(((r : Int) - b).toNat, (a + (r : Int)).toNat), ⟨⟨?_, ?_⟩, ?_⟩, ?_⟩
    · show ((r : Int) - b).toNat < 2 * r + 2
      omega
    · show (a + (r : Int)).toNat < 2 * r + 2
      omega
    · show cellAt c r (((r : Int) - b).toNat) ((a + (r : Int)).toNat) ∈
        ringMembers none c r true true
      rw [mem_ringMembers, hexDist_cellAt, hexDistO_le_iff]
      refine ⟨?_, ?_, ?_⟩ <;> omega
    · show localOffset c (cellAt c r (((r : Int) - b).toNat) ((a + (r : Int)).toNat)) = (a, b)
      rw [localOffset_cellAt]
      simp only [Prod.mk.injEq]
      constructor <;> omega

/-! Validity filtering and Lookup Table lemmas. -/

theorem isValidCenter_iff (index : Option (List Cell)) (keys : List Cell) (r : Nat) (c : Cell) :
    isValidCenter index keys r c = true ↔ ∀ n : Cell, hexDist c n ≤ r → n ∈ keys := by
  rw [isValidCenter, decide_eq_true_eq]
  constructor
  · intro h n hn
    have hmem := h ((mem_ringMembers index c n r).mpr hn)
    rwa [List.mem_toFinset] at hmem
  · intro h n hn
    rw [List.mem_toFinset]
    exact h n ((mem_ringMembers index c n r).mp hn)

theorem isValidCenter_disk_iff (keys : List Cell) (x c : Cell) (D r : Nat)
    (hrD : r ≤ D) (hkeys : keys.toFinset = ringMembers none x D true true) :
    isValidCenter none keys r c = true ↔ hexDist x c ≤ D - r := by
  have hk : ∀ m : Cell, m ∈ keys ↔ hexDist x m ≤ D := by
    intro m
    rw [← List.mem_toFinset, hkeys, mem_ringMembers]
  rw [isValidCenter_iff]
  constructor
  · intro h
    obtain ⟨n, hcn, hxn⟩ := hexDist_extend x c r
    have hn := (hk n).mp (h n hcn)
    omega
  · intro h n hn
    have htri := hexDist_triangle x c n
    rw [hk n]
    omega

theorem lookup_eq_filter (index : Option (List Cell)) (keys : List Cell) (r : Int)
    (ds : HexagonalDataset) (h : mkHexagonalDataset index keys r = Except.ok ds) :
    ds.keys = keys ∧ ds.r = r.toNat ∧
      ds.lookup = keys.filter (fun c => isValidCenter index keys r.toNat c) := by
  rw [mkHexagonalDataset] at h
  by_cases hr : r < 2
  · rw [if_pos hr] at h
    simp at h
  · rw [if_neg hr] at h
    cases h
    exact ⟨rfl, rfl, rfl⟩

theorem lookup_filter_disk (keys : List Cell) (x : Cell) (D r : Nat)
    (hrD : r ≤ D) (hnd : keys.Nodup) (hkeys : keys.toFinset = ringMembers none x D true true) :
    (∀ c : Cell, c ∈ keys.filter (fun c => isValidCenter none keys r c) ↔
      hexDist x c ≤ D - r) ∧
    (keys.filter (fun c => isValidCenter none keys r c)).length
      = (ringMembers none x (D - r) true true).card := by
  have hmem : ∀ c : Cell, c ∈ keys.filter (fun c => isValidCenter none keys r c) ↔
      hexDist x c ≤ D - r := by
    intro c
    rw [List.mem_filter]
    constructor
    · rintro ⟨-, h2⟩
      exact (isValidCenter_disk_iff keys x c D r hrD hkeys).mp h2
    · intro h
      refine ⟨?_, (isValidCenter_disk_iff keys x c D r hrD hkeys).mpr h⟩
      rw [← List.mem_toFinset, hkeys, mem_ringMembers]
      omega
  refine ⟨hmem, ?_⟩
  have hnd2 : (keys.filter (fun c => isValidCenter none keys r c)).Nodup := hnd.filter _
  have hset : (keys.filter (fun c => isValidCenter none keys r c)).toFinset
      = ringMembers none x (D - r) true true := by
    ext m
    rw [List.mem_toFinset, hmem, mem_ringMembers]
  rw [← List.toFinset_card_of_nodup hnd2, hset]

/-! Patch materialization lemmas. -/

theorem patchEntry_written (keys : List Cell) (r : Nat) (c : Cell) (row col : Nat)
    (h : cellAt c r row col ∈ ringMembers none c r true true) :
    patchEntry keys r c row col = slotOf keys (cellAt c r row col) := by
  rw [patchEntry, if_pos h]

theorem patchEntry_unwritten (keys : List Cell) (r : Nat) (c : Cell) (row col : Nat)
    (h : cellAt c r row col ∉ ringMembers none c r true true) :
    patchEntry keys r c row col = 0 := by
  rw [patchEntry, if_neg h]

theorem cellAt_center (c : Cell) (r : Nat) : cellAt c r r r = c := by
  rw [cellAt, Prod.ext_iff]
  exact ⟨by simp, by simp⟩

theorem center_mem_ringMembers (c : Cell) (r : Nat) : c ∈ ringMembers none c r true true := by
  rw [mem_ringMembers, hexDist_self]
  exact Nat.zero_le r

theorem patchGrid_length (keys : List Cell) (r : Nat) (c : Cell) :
    (patchGrid keys r c).length = 2 * r + 2 := by
  simp [patchGrid]

theorem patchGrid_row_length (keys : List Cell) (r : Nat) (c : Cell) :
    ∀ q ∈ patchGrid keys r c, q.length = 2 * r + 2 := by
  intro q hq
  rw [patchGrid, List.mem_map] at hq
  obtain ⟨row, -, rfl⟩ := hq
  simp

theorem patchGrid_center (keys : List Cell) (r : Nat) (c : Cell) :
    ((patchGrid keys r c)[r]?.bind (fun q => q[r]?)) = some (slotOf keys c) := by
  have hr : r < 2 * r + 2 := by omega
  rw [patchGrid, List.getElem?_map, List.getElem?_range hr]
  rw [Option.map_some', Option.some_bind]
  rw [List.getElem?_map, List.getElem?_range hr, Option.map_some']
  rw [patchEntry_written keys r c r r (by rw [cellAt_center]; exact center_mem_ringMembers c r)]
  rw [cellAt_center]

/-! The OSM loader tag-grouping helper, embedded from
`src/srai/loaders/osm_loaders/_base.py`. -/

/-- One value of an `osm_tags_type` filter: a boolean, a single tag value,
or a list of tag values (matching the Python union type). -/
inductive OsmTagFilterValue where
  | boolValue : Bool → OsmTagFilterValue
  | strValue : String → OsmTagFilterValue
  | listValue : List String → OsmTagFilterValue

/-- An `osm_tags_type` filter: an insertion-ordered mapping from OSM tag
keys to filter values. -/
abbrev OsmTagsFilter : Type := List (String × OsmTagFilterValue)

/-- A pandas row restricted to what the helper inspects: ordered key/value
pairs, where a `none` value models a NaN entry and an absent key models a
column missing from the row. -/
abbrev OsmRow : Type := List (String × Option String)

/-- Value of a row at a key, when the key is present. -/
def rowLookup (row : OsmRow) (k : String) : Option (Option String) :=
  (row.find? (fun e => e.1 == k)).map (fun e => e.2)

/-- One filter-entry match test, mirroring `is_matching_bool_filter`,
`is_matching_string_filter` and `is_matching_list_filter` in `_base.py`. -/
def osmTagValueMatches : OsmTagFilterValue → String → Bool
  | OsmTagFilterValue.boolValue b, _ => b
  | OsmTagFilterValue.strValue s, v => v == s
  | OsmTagFilterValue.listValue l, v => l.contains v

/-- `OSMLoader._get_first_matching_osm_tag_value` from `_base.py`: scan the
filter entries in order; skip keys absent from the row or holding NaN;
on the first match return the key and the row's value joined by an equal
sign; return `none` when no entry matches. -/
def getFirstMatchingOsmTagValue (row : OsmRow) (osmFilter : OsmTagsFilter) : Option String :=
  match osmFilter with
  | [] => none
  | (k, fv) :: rest =>
    match rowLookup row k with
    | some (some v) =>
      if osmTagValueMatches fv v then some (k ++ "=" ++ v)
      else getFirstMatchingOsmTagValue row rest
    | _ => getFirstMatchingOsmTagValue row rest

/-- Whether one filter entry matches the row: its key is present, not NaN,
and the row value satisfies the entry's filter value. -/
def osmKeyMatches (row : OsmRow) (e : String × OsmTagFilterValue) : Bool :=
  match rowLookup row e.1 with
  | some (some v) => osmTagValueMatches e.2 v
  | _ => false

theorem getFirstMatching_eq_find (row : OsmRow) (f : OsmTagsFilter) :
    getFirstMatchingOsmTagValue row f =
      (f.find? (fun e => osmKeyMatches row e)).bind
        (fun e => ((rowLookup row e.1).bind id).map (fun v => e.1 ++ "=" ++ v)) := by
  induction f with
  | nil => rfl
  | cons e rest ih =>
    obtain ⟨k, fv⟩ := e
    rcases hrl : rowLookup row k with - | ov
    · have hkm : osmKeyMatches row (k, fv) = false := by
        rw [osmKeyMatches]
        rw [hrl]
      rw [List.find?_cons_of_neg _ (by rw [hkm]; exact Bool.false_ne_true)]
      rw [getFirstMatchingOsmTagValue, hrl]
      exact ih
    · rcases ov with - | v
      · have hkm : osmKeyMatches row (k, fv) = false := by
          rw [osmKeyMatches]
          rw [hrl]
        rw [List.find?_cons_of_neg _ (by rw [hkm]; exact Bool.false_ne_true)]
        rw [getFirstMatchingOsmTagValue, hrl]
        exact ih
      · by_cases hm : osmTagValueMatches fv v = true
        · have hkm : osmKeyMatches row (k, fv) = true := by
            rw [osmKeyMatches]
            rw [hrl]
            exact hm
          rw [List.find?_cons_of_pos _ hkm]
          simp [getFirstMatchingOsmTagValue, hrl, hm]
        · have hkm : osmKeyMatches row (k, fv) = false := by
            rw [osmKeyMatches]
            rw [hrl]
            exact Bool.of_not_eq_true hm
          rw [List.find?_cons_of_neg _ (by rw [hkm]; exact Bool.false_ne_true)]
          rw [getFirstMatchingOsmTagValue, hrl]
          simpa [hm] using ih

theorem getFirstMatching_none_iff (row : OsmRow) (f : OsmTagsFilter) :
    getFirstMatchingOsmTagValue row f = none ↔ ∀ e ∈ f, osmKeyMatches row e = false := by
  rw [getFirstMatching_eq_find]
  constructor
  · intro h e he
    cases hx : osmKeyMatches row e with
    | false => rfl
    | true =>
      exfalso
      have hsome : (f.find? (fun e => osmKeyMatches row e)).isSome := by
        rw [List.find?_isSome]
        exact ⟨e, he, hx⟩
      obtain ⟨a, ha⟩ := Option.isSome_iff_exists.mp hsome
      have hpa : osmKeyMatches row a = true := List.find?_some ha
      obtain ⟨v, hv⟩ : ∃ v, rowLookup row a.1 = some (some v) := by
        rw [osmKeyMatches] at hpa
        rcases hy : rowLookup row a.1 with - | ov
        · rw [hy] at hpa
          exact absurd hpa Bool.false_ne_true
        · rcases ov with - | v
          · rw [hy] at hpa
            exact absurd hpa Bool.false_ne_true
          · exact ⟨v, rfl⟩
      rw [ha, Option.some_bind, hv] at h
      exact Option.some_ne_none _ h
  · intro h
    rw [List.find?_eq_none.mpr (fun x hx => by rw [h x hx]; exact Bool.false_ne_true)]
    rfl

theorem cellAt_of_offset (c : Cell) (r : Nat) (i j : Int)
    (hi : i.natAbs ≤ r) (hj : j.natAbs ≤ r) :
    cellAt c r (((r : Int) - j).toNat) ((i + (r : Int)).toNat) = (c.1 + i, c.2 + j) := by
  rw [cellAt, Prod.ext_iff]
  refine ⟨?_, ?_⟩
  · show c.1 + ((((i + (r : Int)).toNat : Nat) : Int) - (r : Int)) = c.1 + i
    omega
  · show c.2 + ((r : Int) - ((((r : Int) - j).toNat : Nat) : Int)) = c.2 + j
    omega

/-! The claims. -/

/-- Claim C1: for every valid center c and every neighbor n in its disk of
radius r with local offset (i, j), the Patch stores the Data Index slot of
n at grid position row = r - j, col = i + r; and in the radius-2 scenario
of spec section 8, the offsets read back from the written (non-sentinel)
positions of the 6x6 grid enumerate exactly the 19 listed axial pairs,
while every position no disk member maps to holds sentinel 0. -/
theorem claim1_patch_position_mapping :
    (∀ (keys : List Cell) (r : Nat) (c n : Cell), hexDist c n ≤ r →
      patchEntry keys r c (((r : Int) - (localOffset c n).2).toNat)
        (((localOffset c n).1 + (r : Int)).toNat) = slotOf keys n) ∧
    (∀ c : Cell,
      ((Finset.range 6 ×ˢ Finset.range 6).filter
          (fun q => cellAt c 2 q.1 q.2 ∈ ringMembers none c 2 true true)).image
        (fun q => localOffset c (cellAt c 2 q.1 q.2)) = listed19.toFinset) ∧
    (∀ (keys : List Cell) (c : Cell) (row col : Nat),
      cellAt c 2 row col ∉ ringMembers none c 2 true true →
      patchEntry keys 2 c row col = 0) := by
  refine ⟨?_, ?_, ?_⟩
  · intro keys r c n h
    have hb := (hexDistO_le_iff (n.1 - c.1) (n.2 - c.2) r).mp
      (by rw [← hexDist_eq]; exact h)
    show patchEntry keys r c (((r : Int) - (n.2 - c.2)).toNat)
      (((n.1 - c.1) + (r : Int)).toNat) = slotOf keys n
    have hcell : cellAt c r (((r : Int) - (n.2 - c.2)).toNat)
        (((n.1 - c.1) + (r : Int)).toNat) = n := by
      rw [cellAt_of_offset c r (n.1 - c.1) (n.2 - c.2) hb.1 hb.2.1, Prod.ext_iff]
      refine ⟨?_, ?_⟩
      · show c.1 + (n.1 - c.1) = n.1
        omega
      · show c.2 + (n.2 - c.2) = n.2
        omega
    rw [patchEntry, hcell, if_pos ((mem_ringMembers none c n r).mpr h)]
  · intro c
    have h := written_offsets_image c 2
    rw [diskOffsets_two] at h
    exact h
  · intro keys c row col h
    exact patchEntry_unwritten keys 2 c row col h

/-- Witness for claim C1 at concrete inputs: the neighbor (1, 0) of the
origin at ring distance 2 is stored at grid position (2, 3). -/
theorem claim1_patch_position_mapping_witness :
    hexDist ((0 : Int), (0 : Int)) ((1 : Int), (0 : Int)) ≤ 2 ∧
    patchEntry sampleKeys 2 ((0 : Int), (0 : Int)) 2 3
      = slotOf sampleKeys ((1 : Int), (0 : Int)) := by
  refine ⟨by decide, ?_⟩
  exact claim1_patch_position_mapping.1 sampleKeys 2 ((0 : Int), (0 : Int)) ((1 : Int), (0 : Int))
    (by decide)

/-- Claim C2: a cell is a valid center iff its whole disk of radius r is
contained in the Data Index keys; and for a Data Index holding exactly the
disk of radius D around x (D at least r), the valid centers are exactly the
disk of radius D - r around x and the dataset length is its cardinality. -/
theorem claim2_valid_centers :
    (∀ (index : Option (List Cell)) (keys : List Cell) (r : Nat) (c : Cell),
      isValidCenter index keys r c = true ↔ ∀ n : Cell, hexDist c n ≤ r → n ∈ keys) ∧
    (∀ (keys : List Cell) (x : Cell) (D r : Nat) (ds : HexagonalDataset),
      2 ≤ r → r ≤ D → keys.Nodup →
      keys.toFinset = ringMembers none x D true true →
      mkHexagonalDataset none keys (r : Int) = Except.ok ds →
      (∀ c : Cell, c ∈ ds.lookup ↔ hexDist x c ≤ D - r) ∧
        datasetLength ds = (ringMembers none x (D - r) true true).card) := by
  constructor
  · exact isValidCenter_iff
  · intro keys x D r ds h2 hrD hnd hkeys hmk
    obtain ⟨hk, hr, hl⟩ := lookup_eq_filter none keys (r : Int) ds hmk
    have hrt : ((r : Int)).toNat = r := by omega
    rw [hrt] at hl
    have hmain := lookup_filter_disk keys x D r hrD hnd hkeys
    constructor
    · intro c
      rw [hl]
      exact hmain.1 c
    · rw [datasetLength, hl]
      exact hmain.2

/-- Witness for claim C2: for the full radius-3 disk around the origin as
Data Index, the cell (0, 1) lies in the keys as forced by validity of the
origin, and the dataset built with r = 2 has as many items as the radius-1
disk. -/
theorem claim2_valid_centers_witness :
    ((0 : Int), (1 : Int)) ∈ listed37 ∧
    (listed37.filter (fun c => isValidCenter none listed37 2 c)).length
      = (ringMembers none ((0 : Int), (0 : Int)) 1 true true).card := by
  constructor
  · exact (claim2_valid_centers.1 none listed37 3 ((0 : Int), (0 : Int))).mp (by decide)
      ((0 : Int), (1 : Int)) (by decide)
  · exact (claim2_valid_centers.2 listed37 ((0 : Int), (0 : Int)) 3 2
      ⟨listed37, 2, listed37.filter (fun c => isValidCenter none listed37 2 c)⟩
      (by decide) (by decide) (by decide) (by decide) rfl).2

/-- Claim C3: construction fails with the validation error for every ring
distance below 2 (zero and negatives included) and succeeds for every ring
distance of at least 2, for any Data Index and neighborhood capability. -/
theorem claim3_ring_distance_validation (index : Option (List Cell)) (keys : List Cell)
    (r : Int) :
    (r < 2 → mkHexagonalDataset index keys r = Except.error ringDistanceErrorMsg) ∧
    (2 ≤ r → ∃ ds : HexagonalDataset, mkHexagonalDataset index keys r = Except.ok ds) := by
  constructor
  · intro h
    rw [mkHexagonalDataset, if_pos h]
  · intro h
    exact ⟨_, by rw [mkHexagonalDataset, if_neg (by omega)]⟩

/-- Witness for claim C3 at ring distances -1 and 2. -/
theorem claim3_ring_distance_validation_witness :
    mkHexagonalDataset none ([] : List Cell) (-1) = Except.error ringDistanceErrorMsg ∧
    ∃ ds : HexagonalDataset, mkHexagonalDataset none ([] : List Cell) 2 = Except.ok ds := by
  constructor
  · exact (claim3_ring_distance_validation none [] (-1)).1 (by decide)
  · exact (claim3_ring_distance_validation none [] 2).2 (by decide)

/-- Claim C4: round-trip: at every written (non-sentinel) grid position
(row, col) of the Patch of a valid center c, the cell at local offset
(col - r, r - row) from c has exactly the stored Data Index slot. -/
theorem claim4_round_trip (keys : List Cell) (r : Nat) (c : Cell)
    (hvalid : isValidCenter none keys r c = true) (row col : Nat)
    (hwritten : cellAt c r row col ∈ ringMembers none c r true true) :
    patchEntry keys r c row col = slotOf keys (cellAt c r row col) :=
  patchEntry_written keys r c row col hwritten

/-- Witness for claim C4 at the origin-centered sample dataset, grid
position (2, 3). -/
theorem claim4_round_trip_witness :
    (isValidCenter none sampleKeys 2 ((0 : Int), (0 : Int)) = true ∧
      cellAt ((0 : Int), (0 : Int)) 2 2 3 ∈ ringMembers none ((0 : Int), (0 : Int)) 2 true true) ∧
    patchEntry sampleKeys 2 ((0 : Int), (0 : Int)) 2 3
      = slotOf sampleKeys (cellAt ((0 : Int), (0 : Int)) 2 2 3) := by
  refine ⟨⟨by decide, by decide⟩, ?_⟩
  exact claim4_round_trip sampleKeys 2 ((0 : Int), (0 : Int)) (by decide) 2 3 (by decide)

/-- Claim C5: padding invariant: in every Patch for any configuration with
r at least 2, row 2r+1, column 2r+1 and every interior position no hex
neighbor maps to hold sentinel 0. -/
theorem claim5_padding (keys : List Cell) (r : Nat) (c : Cell) (row col : Nat) (hr : 2 ≤ r)
    (h : row = 2 * r + 1 ∨ col = 2 * r + 1 ∨
      cellAt c r row col ∉ ringMembers none c r true true) :
    patchEntry keys r c row col = 0 := by
  refine patchEntry_unwritten keys r c row col ?_
  rcases h with h | h | h
  · intro hmem
    rw [mem_ringMembers, hexDist_cellAt, hexDistO_le_iff] at hmem
    omega
  · intro hmem
    rw [mem_ringMembers, hexDist_cellAt, hexDistO_le_iff] at hmem
    omega
  · exact h

/-- Witness for claim C5 at the reserved padding row 5 = 2*2+1. -/
theorem claim5_padding_witness :
    (2 ≤ 2 ∧ (5 : Nat) = 2 * 2 + 1) ∧
    patchEntry sampleKeys 2 ((0 : Int), (0 : Int)) 5 0 = 0 := by
  refine ⟨⟨le_refl 2, rfl⟩, ?_⟩
  exact claim5_padding sampleKeys 2 ((0 : Int), (0 : Int)) 5 0 (le_refl 2) (Or.inl rfl)

/-- Claim C6: every Patch produced by `get` is a square grid of side
exactly 2r+2, and the center position (r, r) holds the center cell's own
Data Index slot, the center being a member of its own disk since the disk
is computed with include_center set. -/
theorem claim6_patch_shape_center (ds : HexagonalDataset) (i : Nat) (p : Patch)
    (h : getItem ds i = some p) :
    p.length = 2 * ds.r + 2 ∧ (∀ q ∈ p, q.length = 2 * ds.r + 2) ∧
    ∃ c : Cell, ds.lookup[i]? = some c ∧ c ∈ ringMembers none c ds.r true true ∧
      (p[ds.r]?.bind (fun q => q[ds.r]?)) = some (slotOf ds.keys c) := by
  rw [getItem, Option.map_eq_some'] at h
  obtain ⟨c, hc, rfl⟩ := h
  exact ⟨patchGrid_length _ _ _, patchGrid_row_length _ _ _, c, hc,
    center_mem_ringMembers c ds.r, patchGrid_center _ _ _⟩

/-- Witness for claim C6 on the sample dataset: its first Patch is 6 rows
long and holds slot 0 (the root's slot) at the center position (2, 2). -/
theorem claim6_patch_shape_center_witness :
    getItem sampleDataset 0 = some (patchGrid sampleKeys 2 ((0 : Int), (0 : Int))) ∧
    (patchGrid sampleKeys 2 ((0 : Int), (0 : Int))).length = 6 ∧
    ((patchGrid sampleKeys 2 ((0 : Int), (0 : Int)))[2]?.bind (fun q => q[2]?))
      = some (slotOf sampleKeys ((0 : Int), (0 : Int))) := by
  have hget : getItem sampleDataset 0 = some (patchGrid sampleKeys 2 ((0 : Int), (0 : Int))) := by
    rfl
  obtain ⟨h1, -, c, hc, -, h3⟩ := claim6_patch_shape_center sampleDataset 0 _ hget
  have hx : sampleDataset.lookup[0]? = some (((0 : Int), (0 : Int)) : Cell) := by rfl
  rw [hx] at hc
  have hceq : c = ((0 : Int), (0 : Int)) := (Option.some.inj hc).symm
  subst hceq
  exact ⟨hget, h1, h3⟩

/-- Claim C7: construction is deterministic: identical Data Index and ring
distance give identical results (even for different neighborhood index
configurations, since the Patch Builder always queries unchecked), and
Patch materialization is a pure function of dataset and index. -/
theorem claim7_deterministic :
    (∀ (index index2 : Option (List Cell)) (keys : List Cell) (r : Int),
      mkHexagonalDataset index keys r = mkHexagonalDataset index2 keys r) ∧
    (∀ (ds : HexagonalDataset) (i : Nat), getItem ds i = getItem ds i) := by
  constructor
  · intro index index2 keys r
    rfl
  · intro ds i
    rfl

/-- Claim C8: `get(i)` returns the Patch of `lookup_table[i]` for every
index below the dataset length and fails with an out-of-range result for
every other index. -/
theorem claim8_get_range (ds : HexagonalDataset) (i : Nat) :
    (∀ h : i < ds.lookup.length,
      getItem ds i = some (patchGrid ds.keys ds.r (ds.lookup.get ⟨i, h⟩))) ∧
    (ds.lookup.length ≤ i → getItem ds i = none) := by
  constructor
  · intro h
    rw [getItem, List.getElem?_eq_getElem h]
    rfl
  · intro h
    rw [getItem, List.getElem?_eq_none h]
    rfl

/-- Witness for claim C8 on the sample dataset at indices 0 and 19. -/
theorem claim8_get_range_witness :
    (0 < sampleDataset.lookup.length ∧
      getItem sampleDataset 0 = some (patchGrid sampleKeys 2 ((0 : Int), (0 : Int)))) ∧
    (sampleDataset.lookup.length ≤ 19 ∧ getItem sampleDataset 19 = none) := by
  refine ⟨⟨by decide, ?_⟩, by decide, ?_⟩
  · exact (claim8_get_range sampleDataset 0).1 (by decide)
  · exact (claim8_get_range sampleDataset 19).2 (by decide)

/-- Claim C9: the Lookup Table is the Data Index's own key order filtered
to the valid centers; in particular when the first key is a valid center,
the dataset's first item is that cell's Patch. -/
theorem claim9_lookup_order (index : Option (List Cell)) (keys : List Cell) (r : Int)
    (ds : HexagonalDataset) (hmk : mkHexagonalDataset index keys r = Except.ok ds) :
    ds.lookup = keys.filter (fun c => isValidCenter index keys ds.r c) ∧
    (∀ (k : Cell) (rest : List Cell), keys = k :: rest →
      isValidCenter index keys ds.r k = true →
      getItem ds 0 = some (patchGrid keys ds.r k)) := by
  obtain ⟨hk, hr, hl⟩ := lookup_eq_filter index keys r ds hmk
  rw [hr]
  constructor
  · exact hl
  · rintro k rest rfl hvalid
    rw [getItem, hk, hr, hl, List.filter_cons_of_pos hvalid]
    simp

/-- Witness for claim C9 on the sample dataset, whose first key (the root)
is a valid center. -/
theorem claim9_lookup_order_witness :
    sampleDataset.lookup
      = sampleKeys.filter (fun c => isValidCenter none sampleKeys sampleDataset.r c) ∧
    getItem sampleDataset 0 = some (patchGrid sampleKeys sampleDataset.r ((0 : Int), (0 : Int))) := by
  have h := claim9_lookup_order none sampleKeys 2 sampleDataset rfl
  exact ⟨h.1, h.2 ((0 : Int), (0 : Int)) sampleKeys.tail rfl (by decide)⟩

/-- Claim C10: `_get_first_matching_osm_tag_value` returns the key and row
value of the first filter entry, in the filter's own order, whose row value
matches the entry (boolean true, equal string, or list membership),
skipping keys absent from the row or holding NaN, and returns none iff no
filter entry matches. -/
theorem claim10_first_matching_tag (row : OsmRow) (f : OsmTagsFilter) :
    getFirstMatchingOsmTagValue row f =
      (f.find? (fun e => osmKeyMatches row e)).bind
        (fun e => ((rowLookup row e.1).bind id).map (fun v => e.1 ++ "=" ++ v)) ∧
    (getFirstMatchingOsmTagValue row f = none ↔ ∀ e ∈ f, osmKeyMatches row e = false) :=
  ⟨getFirstMatching_eq_find row f, getFirstMatching_none_iff row f⟩

/-- The OSM tag key amenity, for the sample row. -/
def keyAmenity : String := "amenity"

/-- The OSM tag key building, for the sample filters. -/
def keyBuilding : String := "building"

/-- The OSM tag value parking, for the sample row. -/
def valParking : String := "parking"

/-- A sample row for the OSM helper. -/
def sampleRow : OsmRow := [(keyAmenity, some valParking)]

/-- A sample group filter whose second entry matches `sampleRow`. -/
def sampleFilterA : OsmTagsFilter :=
  [(keyBuilding, OsmTagFilterValue.boolValue true),
   (keyAmenity, OsmTagFilterValue.strValue valParking)]

/-- A sample group filter with no entry matching `sampleRow`. -/
def sampleFilterB : OsmTagsFilter := [(keyBuilding, OsmTagFilterValue.boolValue true)]

/-- Witness for claim C10: the second filter entry matches the sample row
(the first is skipped as absent), and a filter with no matching entry
yields none. -/
theorem claim10_first_matching_tag_witness :
    getFirstMatchingOsmTagValue sampleRow sampleFilterA
      = some (keyAmenity ++ "=" ++ valParking) ∧
    getFirstMatchingOsmTagValue sampleRow sampleFilterB = none := by
  constructor
  · exact (claim10_first_matching_tag sampleRow sampleFilterA).1.trans (by decide)
  · exact (claim10_first_matching_tag sampleRow sampleFilterB).2.mpr (by decide)

end SraiSpec
